import Mathlib

set_option autoImplicit false

/-!
Verification of the parallel-code core against its specification.

The Rust source under src-tauri is shallowly embedded below:

* text processing (the conflict scraping, slug transform, numstat parsing)
  is modelled on explicit character lists, mirroring the corresponding
  str operations of the source;
* git commands are mediated by an environment oracle mapping an argument
  vector to the outcome of the external invocation, and each operation
  additionally returns the ordered trace of invocations it performed;
* the TTL caches are association lists from working-copy path to a value
  plus an absolute expiry instant, with time passed in as a natural number;
* the pty reader thread is a function from a finite list of read results
  to the list of events delivered to the sink.
-/

/-- Rebuild a string from an explicit character list. -/
def ofChars (l : List Char) : String := ⟨l⟩

/-- Boolean test that the first list is a leading segment of the second,
mirroring str starts_with. -/
def isPrefixL : List Char → List Char → Bool
  | [], _ => true
  | _ :: _, [] => false
  | p :: ps, c :: cs => p == c && isPrefixL ps cs

/-- Suffix following the first occurrence of the pattern, mirroring
str find combined with indexing past the pattern; none when the pattern
does not occur. -/
def afterFirstL (pat : List Char) : List Char → Option (List Char)
  | [] => if pat = [] then some [] else none
  | c :: rest =>
    if isPrefixL pat (c :: rest) then some ((c :: rest).drop pat.length)
    else afterFirstL pat rest

/-- Both-ends whitespace trim, mirroring str trim. -/
def trimChars (l : List Char) : List Char :=
  ((l.dropWhile Char.isWhitespace).reverse.dropWhile Char.isWhitespace).reverse

/-- First whitespace-delimited token, mirroring split_whitespace followed
by next. -/
def firstToken (l : List Char) : Option (List Char) :=
  let t := l.dropWhile Char.isWhitespace
  let tok := t.takeWhile (fun c => !c.isWhitespace)
  if tok = [] then none else some tok

/-- Split on a single separator character, keeping empty segments,
mirroring str split with a char pattern. -/
def splitOnChar (sep : Char) : List Char → List (List Char)
  | [] => [[]]
  | c :: rest =>
    match splitOnChar sep rest with
    | [] => [[c]]
    | h :: t => if c = sep then [] :: h :: t else (c :: h) :: t

/-- Logical lines of a byte string, mirroring str lines: split on the
line feed, drop the final empty segment produced by a trailing line feed,
and strip one trailing carriage return per line. -/
def rustLinesL (l : List Char) : List (List Char) :=
  let parts := splitOnChar '\n' l
  let parts := if parts.getLast? = some [] then parts.dropLast else parts
  parts.map (fun ln => if ln.getLast? = some '\r' then ln.dropLast else ln)

/-- Parse of an unsigned 32-bit decimal integer, mirroring str parse to u32:
an optional leading plus sign, at least one digit, and a range bound. -/
def parseU32L (l : List Char) : Option Nat :=
  let body := match l with | '+' :: rest => rest | _ => l
  if body = [] then none
  else if body.all Char.isDigit then
    let n := body.foldl (fun a c => a * 10 + (c.toNat - 48)) 0
    if n < 4294967296 then some n else none
  else none

/-! ## Slug transform and branch naming (tasks/mod.rs) -/

def MAX_SLUG_LEN : Nat := 72

/-- Loop body of slug: walk the lowercased characters, stop once the
accumulated byte length reaches the cap, keep alphanumerics, and collapse
every other run into a single hyphen. -/
def slugLoop : List Char → List Char → Nat → Bool → List Char
  | [], acc, _, _ => acc
  | c :: cs, acc, len, prevHyphen =>
    if MAX_SLUG_LEN ≤ len then acc
    else if c.isAlphanum then slugLoop cs (acc ++ [c]) (len + c.utf8Size) false
    else if prevHyphen then slugLoop cs acc len true
    else slugLoop cs (acc ++ ['-']) (len + 1) true

/-- Trim leading and trailing hyphens, mirroring trim_matches. -/
def trimHyphens (l : List Char) : List Char :=
  ((l.dropWhile (· == '-')).reverse.dropWhile (· == '-')).reverse

/-- Slug transform from tasks/mod.rs: lowercase, keep alphanumerics,
collapse other runs to single hyphens, cap the byte length, trim hyphens
at both ends. -/
def slug (name : String) : String :=
  ofChars (trimHyphens (slugLoop (name.data.map Char.toLower) [] 0 false))

/-- Sanitize a caller-supplied branch name part list: slug each
slash-separated segment, drop empty segments, default to task when
nothing survives. -/
def sanitizeBranchPart (p : String) : String :=
  let parts := ((splitOnChar '/' p.data).map (fun seg => slug (ofChars seg))).filter (· ≠ "")
  if parts = [] then "task" else String.intercalate "/" parts

/-- Branch name built by create_task: sanitized caller part list joined
with the slug of the task name. -/
def create_task_branch_name (name branchPart : String) : String :=
  sanitizeBranchPart branchPart ++ "/" ++ slug name

/-- Worktree path convention from create_worktree. -/
def worktree_path (repo_root branch_name : String) : String :=
  repo_root ++ "/.worktrees/" ++ branch_name

theorem string_append_assoc (a b c : String) : a ++ b ++ c = a ++ (b ++ c) := by
  obtain ⟨la⟩ := a
  obtain ⟨lb⟩ := b
  obtain ⟨lc⟩ := c
  show String.mk ((la ++ lb) ++ lc) = String.mk (la ++ (lb ++ lc))
  rw [List.append_assoc]

/-- C8: branch-name derivation slugs the task name, joins it to the
sanitized caller part list with a slash (defaulting to task when the
sanitized value is empty), and create_worktree places the worktree at
root slash .worktrees slash branch; the concrete end-to-end instance of
the specification evaluates as stated. -/
theorem create_task_branch_and_worktree_path :
    create_task_branch_name "Fix Login Bug!!" "task" = "task/fix-login-bug"
    ∧ slug "Fix Login Bug!!" = "fix-login-bug"
    ∧ sanitizeBranchPart "!!" = "task"
    ∧ sanitizeBranchPart "" = "task"
    ∧ ∀ root : String,
        worktree_path root (create_task_branch_name "Fix Login Bug!!" "task") =
          root ++ "/.worktrees/task/fix-login-bug" := by
  refine ⟨by decide, by decide, by decide, by decide, fun root => ?_⟩
  show root ++ "/.worktrees/" ++ create_task_branch_name "Fix Login Bug!!" "task" = _
  rw [string_append_assoc]
  have h : create_task_branch_name "Fix Login Bug!!" "task" = "task/fix-login-bug" := by decide
  rw [h]
  have h2 : ("/.worktrees/" ++ "task/fix-login-bug" : String) = "/.worktrees/task/fix-login-bug" := by
    decide
  rw [h2]

/-! ## Conflict-path scraping from merge-tree output (git/mod.rs, check_merge_status_sync) -/

/-- Fallback pattern of the standard-output scan: first whitespace-delimited
token after the first close-paren-colon-space substring. -/
def conflictLineFallback (t : List Char) : Option (List Char) :=
  match afterFirstL "): ".data t with
  | some after =>
    match firstToken after with
    | some p => if p ≠ [] then some p else none
    | none => none
  | none => none

/-- Standard-output scan of one merge-tree line, as the source writes it:
trim, require a leading CONFLICT marker, prefer the path after the literal
phrase Merge conflict in, otherwise apply the fallback pattern. -/
def conflictLineStdout (line : List Char) : Option (List Char) :=
  let t := trimChars line
  if !isPrefixL "CONFLICT".data t then none
  else
    match afterFirstL "Merge conflict in ".data t with
    | some rest =>
      let path := trimChars rest
      if path ≠ [] then some path
      else conflictLineFallback t
    | none => conflictLineFallback t

/-- Standard-error scan of one line, as the source writes it: only the
Merge conflict in phrase, on the untrimmed line, with no CONFLICT-marker
requirement and no fallback pattern. -/
def conflictLineStderr (line : List Char) : Option (List Char) :=
  match afterFirstL "Merge conflict in ".data line with
  | some rest =>
    let path := trimChars rest
    if path ≠ [] then some path else none
  | none => none

/-- Conflict-path extraction of check_merge_status_sync: scan the
standard-output lines; when that yields nothing, scan the standard-error
lines with the stderr pattern. -/
def parse_conflicting_files (stdout stderr : String) : List String :=
  let fromOut := (rustLinesL stdout.data).filterMap conflictLineStdout
  let res := if fromOut = [] then (rustLinesL stderr.data).filterMap conflictLineStderr
             else fromOut
  res.map ofChars

/-- Modelled from the spec wording of conflict parsing: one two-pattern
scan per line (leading CONFLICT marker, preferred phrase, fallback token),
claimed by the specification to be applied to standard output and, when
that yields nothing, repeated unchanged against standard error. -/
def specConflictScanLine (line : List Char) : Option (List Char) :=
  let t := trimChars line
  if isPrefixL "CONFLICT".data t then
    ((afterFirstL "Merge conflict in ".data t).bind
        (fun rest => if trimChars rest = [] then none else some (trimChars rest))).orElse
      (fun _ => (afterFirstL "): ".data t).bind firstToken)
  else none

/-- Modelled from the spec wording: the claimed parser repeating the same
two-pattern scan against standard error when standard output yields no
paths. -/
def specParseConflicts (stdout stderr : String) : List String :=
  let fromOut := (rustLinesL stdout.data).filterMap specConflictScanLine
  (if fromOut = [] then (rustLinesL stderr.data).filterMap specConflictScanLine
   else fromOut).map ofChars

/-- C5 counterexample: on an empty standard output and a standard-error
channel carrying a CONFLICT line of the modify-delete shape, the program
extracts nothing, while the claimed repeat of the two-pattern scan would
extract the path through the fallback pattern; the stderr scan of the
source applies only the Merge conflict in phrase. -/
theorem conflict_scan_stderr_counterexample :
    parse_conflicting_files ""
        "CONFLICT (modify/delete): foo.txt deleted in HEAD and modified in main." = []
    ∧ specParseConflicts ""
        "CONFLICT (modify/delete): foo.txt deleted in HEAD and modified in main." =
        ["foo.txt"] := by
  constructor
  · decide
  · decide

theorem firstToken_ne_nil (l p : List Char) (h : firstToken l = some p) : p ≠ [] := by
  unfold firstToken at h
  by_cases h2 : (l.dropWhile Char.isWhitespace).takeWhile (fun c => !c.isWhitespace) = []
  · simp [h2] at h
  · simp [h2] at h
    exact h ▸ h2

theorem conflictLineFallback_eq_bind (t : List Char) :
    conflictLineFallback t = (afterFirstL "): ".data t).bind firstToken := by
  unfold conflictLineFallback
  cases h : afterFirstL "): ".data t with
  | none => rfl
  | some after =>
    cases h2 : firstToken after with
    | none => simp [Option.bind, h2]
    | some p =>
      have hp : p ≠ [] := firstToken_ne_nil after p h2
      simp [Option.bind, h2, hp]

theorem conflictLineStdout_eq_spec (l : List Char) :
    conflictLineStdout l = specConflictScanLine l := by
  unfold conflictLineStdout specConflictScanLine
  cases h : isPrefixL "CONFLICT".data (trimChars l) with
  | false => simp [h]
  | true =>
    simp only [h, Bool.not_true, Bool.false_eq_true, if_false, if_true]
    cases h2 : afterFirstL "Merge conflict in ".data (trimChars l) with
    | none => simpa [Option.orElse] using conflictLineFallback_eq_bind (trimChars l)
    | some rest =>
      by_cases h3 : trimChars rest = []
      · simpa [h3, Option.orElse, Option.bind] using conflictLineFallback_eq_bind (trimChars l)
      · simp [h3, Option.orElse, Option.bind]

theorem conflictLineStderr_eq_phrase (l : List Char) :
    conflictLineStderr l =
      (afterFirstL "Merge conflict in ".data l).bind
        (fun r => if trimChars r = [] then none else some (trimChars r)) := by
  unfold conflictLineStderr
  cases h : afterFirstL "Merge conflict in ".data l with
  | none => rfl
  | some rest =>
    by_cases h3 : trimChars rest = []
    · simp [h3, Option.bind]
    · simp [h3, Option.bind]

/-- C5 amended: the standard-output scan is exactly the two-pattern scan
the specification describes, but when it yields no paths the
standard-error fallback applies only the Merge conflict in phrase (on the
raw line, without the CONFLICT-marker requirement and without the token
fallback), not the full two-pattern scan. -/
theorem conflict_scan_amended (out err : String) :
    parse_conflicting_files out err =
      ((if (rustLinesL out.data).filterMap specConflictScanLine = [] then
          (rustLinesL err.data).filterMap
            (fun l => (afterFirstL "Merge conflict in ".data l).bind
              (fun r => if trimChars r = [] then none else some (trimChars r)))
        else (rustLinesL out.data).filterMap specConflictScanLine).map ofChars) := by
  unfold parse_conflicting_files
  have h1 : conflictLineStdout = specConflictScanLine :=
    funext conflictLineStdout_eq_spec
  have h2 : conflictLineStderr =
      fun l => (afterFirstL "Merge conflict in ".data l).bind
        (fun r => if trimChars r = [] then none else some (trimChars r)) :=
    funext conflictLineStderr_eq_phrase
  rw [h1, h2]

/-! ## Git command environment and TTL caches (git/mod.rs) -/

/-- Outcome of one external git invocation: exit-status flag plus the two
captured output channels. -/
structure CmdResult where
  success : Bool
  stdout : String
  stderr : String
deriving DecidableEq, Repr

/-- Environment oracle: the outcome of each git invocation, identified by
its argument vector; an error value models failure of the invocation
itself at the operating-system level. -/
structure GitEnv where
  run : List String → Except String CmdResult

/-- One TTL cache entry: value plus absolute expiry instant. -/
structure CacheEntry where
  value : String
  expiresAt : Nat
deriving DecidableEq, Repr

/-- TTL cache keyed by working-copy path. -/
abbrev Cache := List (String × CacheEntry)

/-- The two process-wide caches of the git layer. -/
structure GitCaches where
  mainBranch : Cache
  mergeBase : Cache
deriving DecidableEq, Repr

def cacheLookup (c : Cache) (k : String) : Option CacheEntry :=
  (c.find? (fun p => p.1 == k)).map (·.2)

/-- Insertion with map semantics: replace the entry of an existing key,
append otherwise. -/
def cacheInsert (c : Cache) (k : String) (e : CacheEntry) : Cache :=
  if c.any (fun p => p.1 == k) then c.map (fun p => if p.1 == k then (k, e) else p)
  else c ++ [(k, e)]

/-- Hit predicate of a TTL cache: an entry for the key exists and its
expiry instant is still in the future. -/
def cacheFresh (c : Cache) (now : Nat) (k : String) : Bool :=
  match cacheLookup c k with
  | some e => decide (now < e.expiresAt)
  | none => false

def MAIN_BRANCH_TTL : Nat := 60
def MERGE_BASE_TTL : Nat := 30

/-- invalidate_merge_base_cache: drop every merge-base entry for every
path. -/
def invalidate_merge_base_cache (s : GitCaches) : GitCaches :=
  { s with mergeBase := [] }

/-- Drop a literal leading pattern, mirroring str strip with a pattern
argument. -/
def dropPat (pat : List Char) (l : List Char) : Option (List Char) :=
  if isPrefixL pat l then some (l.drop pat.length) else none

/-- detect_main_branch_uncached: try the remote HEAD reference, then probe
for main, then master; returns the result together with the trace of
invocations. An invocation failure of the symbolic-ref call is swallowed
and falls through to the probes, as in the source. -/
def detect_main_branch_uncached (env : GitEnv) : Except String String × List (List String) :=
  let c1 := ["symbolic-ref", "refs/remotes/origin/HEAD"]
  let viaRemote : Option String :=
    match env.run c1 with
    | .ok o =>
      if o.success then
        (dropPat "refs/remotes/origin/".data (trimChars o.stdout.data)).map ofChars
      else none
    | .error _ => none
  match viaRemote with
  | some b => (.ok b, [c1])
  | none =>
    let c2 := ["rev-parse", "--verify", "main"]
    match env.run c2 with
    | .error e => (.error e, [c1, c2])
    | .ok o2 =>
      if o2.success then (.ok "main", [c1, c2])
      else
        let c3 := ["rev-parse", "--verify", "master"]
        match env.run c3 with
        | .error e => (.error e, [c1, c2, c3])
        | .ok o3 =>
          if o3.success then (.ok "master", [c1, c2, c3])
          else (.error "Could not find main or master branch", [c1, c2, c3])

/-- detect_main_branch: consult the 60-second TTL cache first; a fresh hit
returns the cached value with no invocation; otherwise compute, store the
value with expiry sixty seconds in the future, and return it. -/
def detect_main_branch (s : GitCaches) (now : Nat) (env : GitEnv) (key : String) :
    Except String String × GitCaches × List (List String) :=
  match cacheLookup s.mainBranch key with
  | some entry =>
    if now < entry.expiresAt then (.ok entry.value, s, [])
    else
      match detect_main_branch_uncached env with
      | (.ok v, cmds) =>
        (.ok v, { s with mainBranch := cacheInsert s.mainBranch key ⟨v, now + MAIN_BRANCH_TTL⟩ },
         cmds)
      | (.error e, cmds) => (.error e, s, cmds)
  | none =>
    match detect_main_branch_uncached env with
    | (.ok v, cmds) =>
      (.ok v, { s with mainBranch := cacheInsert s.mainBranch key ⟨v, now + MAIN_BRANCH_TTL⟩ },
       cmds)
    | (.error e, cmds) => (.error e, s, cmds)

/-- Cache-miss path of detect_merge_base: detect the main branch, run
merge-base against HEAD, fall back to the main branch name itself when
that command reports failure or prints nothing, store the value with
expiry thirty seconds in the future, and return it. -/
def detect_merge_base_compute (s : GitCaches) (now : Nat) (env : GitEnv) (key : String) :
    Except String String × GitCaches × List (List String) :=
  match detect_main_branch s now env key with
  | (.error e, s1, t0) => (.error e, s1, t0)
  | (.ok main, s1, t0) =>
    let c := ["merge-base", main, "HEAD"]
    match env.run c with
    | .error e => (.error e, s1, t0 ++ [c])
    | .ok out =>
      let result :=
        if out.success then
          let hash := ofChars (trimChars out.stdout.data)
          if hash ≠ "" then hash else main
        else main
      (.ok result,
       { s1 with mergeBase := cacheInsert s1.mergeBase key ⟨result, now + MERGE_BASE_TTL⟩ },
       t0 ++ [c])

/-- detect_merge_base: consult the 30-second TTL cache first; a fresh hit
returns the cached value with no invocation, a miss computes. -/
def detect_merge_base (s : GitCaches) (now : Nat) (env : GitEnv) (key : String) :
    Except String String × GitCaches × List (List String) :=
  match cacheLookup s.mergeBase key with
  | some entry =>
    if now < entry.expiresAt then (.ok entry.value, s, [])
    else detect_merge_base_compute s now env key
  | none => detect_merge_base_compute s now env key

theorem cacheFind_map_insert (c : Cache) (k : String) (e : CacheEntry)
    (h : c.any (fun p => p.1 == k) = true) :
    (c.map (fun p => if p.1 == k then (k, e) else p)).find? (fun p => p.1 == k) =
      some (k, e) := by
  induction c with
  | nil => simp at h
  | cons a rest ih =>
    by_cases ha : a.1 == k
    · simp [List.find?, ha]
    · have ha' : (a.1 == k) = false := by simpa using ha
      have hrest : rest.any (fun p => p.1 == k) = true := by
        simp only [List.any_cons, ha', Bool.false_or] at h
        exact h
      rw [List.map_cons, if_neg (by simp [ha'])]
      rw [List.find?_cons_of_neg _ (by simp [ha'])]
      exact ih hrest

theorem cacheLookup_insert (c : Cache) (k : String) (e : CacheEntry) :
    cacheLookup (cacheInsert c k e) k = some e := by
  unfold cacheInsert cacheLookup
  by_cases hany : c.any (fun p => p.1 == k) = true
  · rw [if_pos hany, cacheFind_map_insert c k e hany]
    rfl
  · rw [if_neg hany]
    have hnone : c.find? (fun p => p.1 == k) = none := by
      rw [List.find?_eq_none]
      intro x hx hpx
      exact hany (List.any_eq_true.mpr ⟨x, hx, hpx⟩)
    rw [List.find?_append, hnone]
    simp [List.find?]

theorem detect_main_branch_uncached_trace (env : GitEnv) :
    (detect_main_branch_uncached env).2 = [["symbolic-ref", "refs/remotes/origin/HEAD"]]
    ∨ (detect_main_branch_uncached env).2 =
        [["symbolic-ref", "refs/remotes/origin/HEAD"], ["rev-parse", "--verify", "main"]]
    ∨ (detect_main_branch_uncached env).2 =
        [["symbolic-ref", "refs/remotes/origin/HEAD"], ["rev-parse", "--verify", "main"],
         ["rev-parse", "--verify", "master"]] := by
  unfold detect_main_branch_uncached
  dsimp only
  split
  · exact Or.inl rfl
  · split
    · exact Or.inr (Or.inl rfl)
    · split
      · exact Or.inr (Or.inl rfl)
      · split
        · exact Or.inr (Or.inr rfl)
        · split
          · exact Or.inr (Or.inr rfl)
          · exact Or.inr (Or.inr rfl)

theorem detect_main_branch_uncached_trace_ne_nil (env : GitEnv) :
    (detect_main_branch_uncached env).2 ≠ [] := by
  rcases detect_main_branch_uncached_trace env with h | h | h <;> simp [h]

/-- C4: detect_main_branch serves a fresh cache entry (expiry still in the
future) without running any command; on a miss or an expired entry it
computes, returns the fresh value on the same call, and stores it with an
expiry sixty seconds in the future. -/
theorem detect_main_branch_ttl_cache (s : GitCaches) (now : Nat) (env : GitEnv) (key : String) :
    (∀ e, cacheLookup s.mainBranch key = some e → now < e.expiresAt →
        detect_main_branch s now env key = (Except.ok e.value, s, []))
    ∧ (cacheFresh s.mainBranch now key = false →
        ∀ v cmds, detect_main_branch_uncached env = (Except.ok v, cmds) →
          (detect_main_branch s now env key).1 = Except.ok v
          ∧ cacheLookup (detect_main_branch s now env key).2.1.mainBranch key =
              some ⟨v, now + MAIN_BRANCH_TTL⟩
          ∧ (detect_main_branch s now env key).2.2 = cmds
          ∧ cmds ≠ []) := by
  constructor
  · intro e he hlt
    unfold detect_main_branch
    rw [he]
    simp [hlt]
  · intro hf v cmds hu
    have hne : cmds ≠ [] := by
      have := detect_main_branch_uncached_trace_ne_nil env
      rw [hu] at this
      exact this
    unfold detect_main_branch
    cases hl : cacheLookup s.mainBranch key with
    | none =>
      dsimp only
      rw [hu]
      exact ⟨rfl, cacheLookup_insert _ _ _, rfl, hne⟩
    | some e =>
      have hexp : ¬ now < e.expiresAt := by
        unfold cacheFresh at hf
        rw [hl] at hf
        simpa using hf
      dsimp only
      rw [if_neg hexp, hu]
      exact ⟨rfl, cacheLookup_insert _ _ _, rfl, hne⟩

/-- Environment in which every invocation succeeds with empty output. -/
def envDefault : GitEnv := ⟨fun _ => Except.ok ⟨true, "", ""⟩⟩

theorem detect_main_branch_ttl_cache_witness :
    detect_main_branch ⟨[("repo", ⟨"main", 100⟩)], []⟩ 40 envDefault "repo" =
        (Except.ok "main", ⟨[("repo", ⟨"main", 100⟩)], []⟩, [])
    ∧ (detect_main_branch ⟨[], []⟩ 0 envDefault "repo").1 = Except.ok "main" :=
  ⟨(detect_main_branch_ttl_cache ⟨[("repo", ⟨"main", 100⟩)], []⟩ 40 envDefault "repo").1
      ⟨"main", 100⟩ (by rfl) (by decide),
   ((detect_main_branch_ttl_cache ⟨[], []⟩ 0 envDefault "repo").2 (by decide) "main"
      [["symbolic-ref", "refs/remotes/origin/HEAD"], ["rev-parse", "--verify", "main"]]
      (by rfl)).1⟩

/-- Environment in which every invocation runs but reports failure, as in
a repository with no remote HEAD and neither a main nor a master branch. -/
def envNoBranches : GitEnv := ⟨fun _ => Except.ok ⟨false, "", ""⟩⟩

/-- C6 counterexample: with no remote HEAD reference and neither a main
nor a master branch, detect_merge_base propagates the hard failure of
detect_main_branch instead of returning a value, so it does not return a
value for every input. -/
theorem detect_merge_base_counterexample :
    (detect_merge_base ⟨[], []⟩ 0 envNoBranches "repo").1 =
      Except.error "Could not find main or master branch" := by
  rfl

/-- C6 amended: detect_merge_base never hard-fails provided main-branch
detection succeeds and the merge-base invocation itself starts; a fresh
cache entry is served as is, and otherwise the computed value falls back
to the main branch name whenever the merge-base command reports failure
or prints only whitespace. -/
theorem detect_merge_base_degrades (s : GitCaches) (now : Nat) (env : GitEnv) (key : String)
    (main : String) (out : CmdResult) :
    (∀ e, cacheLookup s.mergeBase key = some e → now < e.expiresAt →
        (detect_merge_base s now env key).1 = Except.ok e.value)
    ∧ (cacheFresh s.mergeBase now key = false →
        (detect_main_branch s now env key).1 = Except.ok main →
        env.run ["merge-base", main, "HEAD"] = Except.ok out →
        (detect_merge_base s now env key).1 =
          Except.ok (if out.success = true then
                       (if ofChars (trimChars out.stdout.data) ≠ "" then
                          ofChars (trimChars out.stdout.data) else main)
                     else main)) := by
  constructor
  · intro e he hlt
    unfold detect_merge_base
    rw [he]
    simp [hlt]
  · intro hf hmain hrun
    have hcompute : (detect_merge_base_compute s now env key).1 =
        Except.ok (if out.success = true then
                     (if ofChars (trimChars out.stdout.data) ≠ "" then
                        ofChars (trimChars out.stdout.data) else main)
                   else main) := by
      unfold detect_merge_base_compute
      rcases hdm : detect_main_branch s now env key with ⟨r, s1, t0⟩
      rw [hdm] at hmain
      simp only at hmain
      subst hmain
      dsimp only
      rw [hrun]
    unfold detect_merge_base
    cases hl : cacheLookup s.mergeBase key with
    | none => exact hcompute
    | some e =>
      have hexp : ¬ now < e.expiresAt := by
        unfold cacheFresh at hf
        rw [hl] at hf
        simpa using hf
      dsimp only
      rw [if_neg hexp]
      exact hcompute

/-- Environment in which branch probes succeed but merge-base reports no
common ancestor. -/
def envNoMergeBase : GitEnv :=
  ⟨fun args =>
    if args = ["symbolic-ref", "refs/remotes/origin/HEAD"] then Except.ok ⟨false, "", ""⟩
    else if args = ["merge-base", "main", "HEAD"] then Except.ok ⟨false, "", ""⟩
    else Except.ok ⟨true, "", ""⟩⟩

theorem detect_merge_base_degrades_witness :
    (detect_merge_base ⟨[], []⟩ 0 envNoMergeBase "wt").1 = Except.ok "main" :=
  (detect_merge_base_degrades ⟨[], []⟩ 0 envNoMergeBase "wt" "main" ⟨false, "", ""⟩).2
    (by decide) (by rfl) (by rfl)

/-! ## Merge-status dry run (git/mod.rs, check_merge_status_sync) -/

/-- Result of check_merge_status: how far main is ahead plus the scraped
conflicting paths. -/
structure MergeStatus where
  main_ahead_count : Nat
  conflicting_files : List String
deriving DecidableEq, Repr

/-- check_merge_status_sync: detect the main branch, count the commits
main is ahead of HEAD (the exit status of that command is never examined;
an unparsable count silently becomes zero), return immediately with no
conflicts when the count is zero, and otherwise run the merge-tree dry run
and scrape its output on failure. -/
def check_merge_status_sync (s : GitCaches) (now : Nat) (env : GitEnv) (key : String) :
    Except String MergeStatus × GitCaches × List (List String) :=
  match detect_main_branch s now env key with
  | (.error e, s1, t0) => (.error e, s1, t0)
  | (.ok main, s1, t0) =>
    let c1 := ["rev-list", "--count", "HEAD.." ++ main]
    match env.run c1 with
    | .error e => (.error e, s1, t0 ++ [c1])
    | .ok out =>
      let main_ahead_count := (parseU32L (trimChars out.stdout.data)).getD 0
      if main_ahead_count = 0 then
        (.ok ⟨0, []⟩, s1, t0 ++ [c1])
      else
        let c2 := ["merge-tree", "--write-tree", "HEAD", main]
        match env.run c2 with
        | .error e => (.error e, s1, t0 ++ [c1, c2])
        | .ok mo =>
          let conflicting_files :=
            if mo.success then [] else parse_conflicting_files mo.stdout mo.stderr
          (.ok ⟨main_ahead_count, conflicting_files⟩, s1, t0 ++ [c1, c2])

theorem detect_main_branch_trace (s : GitCaches) (now : Nat) (env : GitEnv) (key : String) :
    (detect_main_branch s now env key).2.2 = []
    ∨ (detect_main_branch s now env key).2.2 = (detect_main_branch_uncached env).2 := by
  unfold detect_main_branch
  cases cacheLookup s.mainBranch key with
  | none =>
    dsimp only
    rcases detect_main_branch_uncached env with ⟨r, cmds⟩
    cases r <;> simp
  | some e =>
    dsimp only
    by_cases hlt : now < e.expiresAt
    · rw [if_pos hlt]
      exact Or.inl rfl
    · rw [if_neg hlt]
      rcases detect_main_branch_uncached env with ⟨r, cmds⟩
      cases r <;> simp

theorem detect_main_branch_trace_heads (s : GitCaches) (now : Nat) (env : GitEnv) (key : String) :
    ∀ c ∈ (detect_main_branch s now env key).2.2,
      c.head? = some "symbolic-ref" ∨ c.head? = some "rev-parse" := by
  intro c hc
  rcases detect_main_branch_trace s now env key with h | h
  · rw [h] at hc
    simp at hc
  · rw [h] at hc
    rcases detect_main_branch_uncached_trace env with h2 | h2 | h2
    · rw [h2] at hc
      simp at hc
      rw [hc]
      decide
    · rw [h2] at hc
      simp at hc
      rcases hc with hc | hc <;> rw [hc] <;> decide
    · rw [h2] at hc
      simp at hc
      rcases hc with hc | hc | hc <;> rw [hc] <;> decide

/-- C10: when the ahead-count output fails to parse as an unsigned
integer, check_merge_status returns success with a zero count and an empty
conflict list, and the merge-tree dry run is never invoked. -/
theorem ahead_count_parse_failure_defaults_zero (s : GitCaches) (now : Nat) (env : GitEnv)
    (key main : String) (out : CmdResult)
    (hmain : (detect_main_branch s now env key).1 = Except.ok main)
    (hrun : env.run ["rev-list", "--count", "HEAD.." ++ main] = Except.ok out)
    (hparse : parseU32L (trimChars out.stdout.data) = none) :
    (check_merge_status_sync s now env key).1 = Except.ok ⟨0, []⟩
    ∧ (check_merge_status_sync s now env key).2.2 =
        (detect_main_branch s now env key).2.2 ++ [["rev-list", "--count", "HEAD.." ++ main]]
    ∧ ∀ c ∈ (check_merge_status_sync s now env key).2.2, c.head? ≠ some "merge-tree" := by
  have hmain2 : detect_main_branch s now env key =
      (Except.ok main, (detect_main_branch s now env key).2.1,
       (detect_main_branch s now env key).2.2) := by
    rw [← hmain]
  have hcms : check_merge_status_sync s now env key =
      (Except.ok ⟨0, []⟩, (detect_main_branch s now env key).2.1,
       (detect_main_branch s now env key).2.2 ++ [["rev-list", "--count", "HEAD.." ++ main]]) := by
    unfold check_merge_status_sync
    rw [hmain2]
    dsimp only
    rw [hrun]
    dsimp only
    rw [hparse]
    rfl
  refine ⟨by rw [hcms], by rw [hcms], ?_⟩
  rw [hcms]
  intro c hc
  dsimp only at hc
  rw [List.mem_append] at hc
  rcases hc with hc | hc
  · rcases detect_main_branch_trace_heads s now env key c hc with h | h <;> rw [h] <;>
      intro hcon <;> simp at hcon
  · simp at hc
    rw [hc]
    intro hcon
    simp at hcon

/-- Environment in which the ahead-count command prints something that is
not an unsigned integer. -/
def envGarbageCount : GitEnv :=
  ⟨fun args =>
    if args = ["symbolic-ref", "refs/remotes/origin/HEAD"] then Except.ok ⟨false, "", ""⟩
    else if args = ["rev-list", "--count", "HEAD..main"] then Except.ok ⟨true, "garbage", ""⟩
    else Except.ok ⟨true, "", ""⟩⟩

theorem ahead_count_parse_failure_defaults_zero_witness :
    (check_merge_status_sync ⟨[], []⟩ 0 envGarbageCount "wt").1 = Except.ok ⟨0, []⟩ :=
  (ahead_count_parse_failure_defaults_zero ⟨[], []⟩ 0 envGarbageCount "wt" "main"
    ⟨true, "garbage", ""⟩ (by rfl) (by rfl) (by rfl)).1

/-! ## Rebase (git/mod.rs, rebase_task_sync) -/

/-- Abstract repository state observed by a status query, tracking whether
an in-progress rebase is present. The transitions encode the contract of
the external git tool: a successful rebase leaves no in-progress state, a
failed rebase may leave one behind, and a rebase abort removes it. -/
structure RepoState where
  rebaseInProgress : Bool
deriving DecidableEq, Repr

/-- rebase_task_sync: detect the main branch, run the rebase; on a failed
rebase run an explicit abort before surfacing the error; on success clear
the whole merge-base cache. -/
def rebase_task_sync (s : GitCaches) (now : Nat) (env : GitEnv) (key : String) (st : RepoState) :
    Except String Unit × GitCaches × RepoState × List (List String) :=
  match detect_main_branch s now env key with
  | (.error e, s1, t0) => (.error e, s1, st, t0)
  | (.ok main, s1, t0) =>
    let c := ["rebase", main]
    match env.run c with
    | .error e => (.error e, s1, st, t0 ++ [c])
    | .ok out =>
      if out.success then
        (.ok (), invalidate_merge_base_cache s1, { st with rebaseInProgress := false },
         t0 ++ [c])
      else
        -- A failed rebase may leave in-progress state; the abort clears it.
        (.error ("Rebase failed: " ++ out.stderr), s1, { st with rebaseInProgress := false },
         t0 ++ [c, ["rebase", "--abort"]])

/-- C2: whenever the rebase command reports failure, rebase_task_sync runs
an explicit rebase abort after the failed rebase and before returning the
error, and the returned repository state shows no in-progress rebase. -/
theorem rebase_failure_aborts_and_cleans (s : GitCaches) (now : Nat) (env : GitEnv)
    (key main : String) (st : RepoState) (out : CmdResult)
    (hmain : (detect_main_branch s now env key).1 = Except.ok main)
    (hrun : env.run ["rebase", main] = Except.ok out)
    (hfail : out.success = false) :
    (rebase_task_sync s now env key st).1 = Except.error ("Rebase failed: " ++ out.stderr)
    ∧ (rebase_task_sync s now env key st).2.2.1.rebaseInProgress = false
    ∧ (rebase_task_sync s now env key st).2.2.2 =
        (detect_main_branch s now env key).2.2 ++ [["rebase", main], ["rebase", "--abort"]] := by
  have hmain2 : detect_main_branch s now env key =
      (Except.ok main, (detect_main_branch s now env key).2.1,
       (detect_main_branch s now env key).2.2) := by
    rw [← hmain]
  have hr : rebase_task_sync s now env key st =
      (Except.error ("Rebase failed: " ++ out.stderr),
       (detect_main_branch s now env key).2.1, { st with rebaseInProgress := false },
       (detect_main_branch s now env key).2.2 ++ [["rebase", main], ["rebase", "--abort"]]) := by
    unfold rebase_task_sync
    rw [hmain2]
    dsimp only
    rw [hrun]
    dsimp only
    rw [hfail]
    rfl
  exact ⟨by rw [hr], by rw [hr], by rw [hr]⟩

/-- Environment in which the rebase command fails. -/
def envRebaseFails : GitEnv :=
  ⟨fun args =>
    if args = ["symbolic-ref", "refs/remotes/origin/HEAD"] then Except.ok ⟨false, "", ""⟩
    else if args = ["rebase", "main"] then Except.ok ⟨false, "", "conflict"⟩
    else Except.ok ⟨true, "", ""⟩⟩

theorem rebase_failure_aborts_and_cleans_witness :
    (rebase_task_sync ⟨[], []⟩ 0 envRebaseFails "wt" ⟨true⟩).2.2.1.rebaseInProgress = false :=
  (rebase_failure_aborts_and_cleans ⟨[], []⟩ 0 envRebaseFails "wt" "main" ⟨true⟩
    ⟨false, "", "conflict"⟩ (by rfl) (by rfl) (by rfl)).2.1

/-! ## Merge (git/mod.rs, merge_task_sync, remove_worktree) -/

/-- Saturating 32-bit addition, mirroring u32 saturating_add. -/
def satAdd32 (a b : Nat) : Nat := min (a + b) 4294967295

/-- compute_branch_diff_stats parsing: per numstat line with at least
three tab-separated fields, add the first two fields (unparsable fields
count as zero). -/
def numstatTotals (out : String) : Nat × Nat :=
  (rustLinesL out.data).foldl
    (fun acc ln =>
      match splitOnChar '\t' ln with
      | a :: b :: _ :: _ =>
        (satAdd32 acc.1 ((parseU32L a).getD 0), satAdd32 acc.2 ((parseU32L b).getD 0))
      | _ => acc)
    (0, 0)

/-- Filesystem facts consulted by remove_worktree. -/
structure FsEnv where
  rootExists : Bool
  worktreeDirExists : String → Bool

/-- remove_worktree: no-op when the repository root is gone; otherwise
remove the worktree registration when its directory exists (falling back
to raw directory deletion on a reported failure, which the model treats
as a filesystem side effect), always prune afterwards, and optionally
delete the branch best-effort. Only an invocation-level failure of the
remove command propagates. -/
def remove_worktree (env : GitEnv) (fs : FsEnv) (repo_root branch_name : String)
    (delete_branch : Bool) : Except String Unit × List (List String) :=
  let wp := worktree_path repo_root branch_name
  if !fs.rootExists then (.ok (), [])
  else
    match
      (if fs.worktreeDirExists wp then
        match env.run ["worktree", "remove", "--force", wp] with
        | .error e => (some e, [["worktree", "remove", "--force", wp]])
        | .ok _ => (none, [["worktree", "remove", "--force", wp]])
      else (none, [])) with
    | (some e, t1) => (.error e, t1)
    | (none, t1) =>
      let t2 := t1 ++ [["worktree", "prune"]]
      if delete_branch then (.ok (), t2 ++ [["branch", "-D", "--", branch_name]])
      else (.ok (), t2)

/-- Result of merge_task. -/
structure MergeResult where
  main_branch : String
  lines_added : Nat
  lines_removed : Nat
deriving DecidableEq, Repr

/-- merge_task_sync: detect the main branch, collect diff stats, require a
clean working tree, check out main, run a squash merge plus commit or a
regular merge, clear the whole merge-base cache, and optionally clean up
the source worktree and branch. -/
def merge_task_sync (s : GitCaches) (now : Nat) (env : GitEnv) (fs : FsEnv)
    (project_root branch_name : String) (squash : Bool) (message : Option String)
    (cleanup : Bool) : Except String MergeResult × GitCaches × List (List String) :=
  match detect_main_branch s now env project_root with
  | (.error e, s1, t0) => (.error e, s1, t0)
  | (.ok main, s1, t0) =>
    let cDiff := ["diff", "--numstat", main ++ ".." ++ branch_name]
    match env.run cDiff with
    | .error e => (.error e, s1, t0 ++ [cDiff])
    | .ok dOut =>
      if !dOut.success then
        (.error ("Failed to collect merge diff stats: " ++ dOut.stderr), s1, t0 ++ [cDiff])
      else
        let stats := numstatTotals dOut.stdout
        let cStatus := ["status", "--porcelain"]
        match env.run cStatus with
        | .error e => (.error e, s1, t0 ++ [cDiff, cStatus])
        | .ok sOut =>
          if sOut.stdout ≠ "" then
            (.error "Project root has uncommitted changes. Please commit or stash them before merging.",
             s1, t0 ++ [cDiff, cStatus])
          else
            let cCo := ["checkout", main]
            match env.run cCo with
            | .error e => (.error e, s1, t0 ++ [cDiff, cStatus, cCo])
            | .ok coOut =>
              if !coOut.success then
                (.error ("Failed to checkout " ++ main ++ ": " ++ coOut.stderr), s1,
                 t0 ++ [cDiff, cStatus, cCo])
              else
                let mergeStep :=
                  if squash then
                    let cM := ["merge", "--squash", "--", branch_name]
                    match env.run cM with
                    | .error e => (some e, [cM])
                    | .ok mOut =>
                      if !mOut.success then
                        (some ("Squash merge failed: " ++ mOut.stderr), [cM])
                      else
                        let cC := ["commit", "-m", message.getD "Squash merge"]
                        match env.run cC with
                        | .error e => (some e, [cM, cC])
                        | .ok cOut =>
                          if !cOut.success then
                            (some ("Commit failed: " ++ cOut.stderr), [cM, cC])
                          else (none, [cM, cC])
                  else
                    let cM := ["merge", "--", branch_name]
                    match env.run cM with
                    | .error e => (some e, [cM])
                    | .ok mOut =>
                      if !mOut.success then (some ("Merge failed: " ++ mOut.stderr), [cM])
                      else (none, [cM])
                match mergeStep with
                | (some e, tm) => (.error e, s1, t0 ++ [cDiff, cStatus, cCo] ++ tm)
                | (none, tm) =>
                  let s2 := invalidate_merge_base_cache s1
                  if cleanup then
                    match remove_worktree env fs project_root branch_name true with
                    | (.error e, tr) => (.error e, s2, t0 ++ [cDiff, cStatus, cCo] ++ tm ++ tr)
                    | (.ok _, tr) =>
                      (.ok ⟨main, stats.1, stats.2⟩, s2, t0 ++ [cDiff, cStatus, cCo] ++ tm ++ tr)
                  else (.ok ⟨main, stats.1, stats.2⟩, s2, t0 ++ [cDiff, cStatus, cCo] ++ tm)

/-- Boolean success test on a result value. -/
def exceptOk {ε α : Type} : Except ε α → Bool
  | .ok _ => true
  | .error _ => false

theorem merge_ok_clears_mb (s : GitCaches) (now : Nat) (env : GitEnv) (fs : FsEnv)
    (pr bn : String) (sq : Bool) (msg : Option String) (cl : Bool) :
    ∀ r s' t, merge_task_sync s now env fs pr bn sq msg cl = (r, s', t) →
      exceptOk r = true → s'.mergeBase = [] := by
  intro r s' t ho h
  unfold merge_task_sync at ho
  dsimp only at ho
  repeat' split at ho
  all_goals simp only [Prod.mk.injEq] at ho
  all_goals obtain ⟨hr, hs, ht⟩ := ho
  all_goals subst hr
  all_goals first
    | (subst hs; rfl)
    | simp [exceptOk] at h

theorem rebase_ok_clears_mb (s : GitCaches) (now : Nat) (env : GitEnv) (key : String)
    (st : RepoState) :
    ∀ r s' st' t, rebase_task_sync s now env key st = (r, s', st', t) →
      exceptOk r = true → s'.mergeBase = [] := by
  intro r s' st' t ho h
  unfold rebase_task_sync at ho
  dsimp only at ho
  repeat' split at ho
  all_goals simp only [Prod.mk.injEq] at ho
  all_goals obtain ⟨hr, hs, ht⟩ := ho
  all_goals subst hr
  all_goals first
    | (subst hs; rfl)
    | simp [exceptOk] at h

/-- C3: every successful completion of merge_task_sync, and of
rebase_task_sync, leaves the merge-base cache empty for all paths, so a
subsequent lookup for any path misses and recomputes. -/
theorem merge_and_rebase_clear_entire_merge_base_cache :
    (∀ (s : GitCaches) (now : Nat) (env : GitEnv) (fs : FsEnv) (pr bn : String) (sq : Bool)
        (msg : Option String) (cl : Bool) (res : MergeResult),
        (merge_task_sync s now env fs pr bn sq msg cl).1 = Except.ok res →
          (merge_task_sync s now env fs pr bn sq msg cl).2.1.mergeBase = []
          ∧ ∀ p, cacheLookup (merge_task_sync s now env fs pr bn sq msg cl).2.1.mergeBase p =
              none)
    ∧ (∀ (s : GitCaches) (now : Nat) (env : GitEnv) (key : String) (st : RepoState),
        (rebase_task_sync s now env key st).1 = Except.ok () →
          (rebase_task_sync s now env key st).2.1.mergeBase = []
          ∧ ∀ p, cacheLookup (rebase_task_sync s now env key st).2.1.mergeBase p = none) := by
  constructor
  · intro s now env fs pr bn sq msg cl res h
    have hmb : (merge_task_sync s now env fs pr bn sq msg cl).2.1.mergeBase = [] := by
      refine merge_ok_clears_mb s now env fs pr bn sq msg cl
        (merge_task_sync s now env fs pr bn sq msg cl).1
        (merge_task_sync s now env fs pr bn sq msg cl).2.1
        (merge_task_sync s now env fs pr bn sq msg cl).2.2 rfl ?_
      rw [h]
      rfl
    exact ⟨hmb, fun p => by rw [hmb]; rfl⟩
  · intro s now env key st h
    have hmb : (rebase_task_sync s now env key st).2.1.mergeBase = [] := by
      refine rebase_ok_clears_mb s now env key st
        (rebase_task_sync s now env key st).1
        (rebase_task_sync s now env key st).2.1
        (rebase_task_sync s now env key st).2.2.1
        (rebase_task_sync s now env key st).2.2.2 rfl ?_
      rw [h]
      rfl
    exact ⟨hmb, fun p => by rw [hmb]; rfl⟩

theorem merge_and_rebase_clear_entire_merge_base_cache_witness :
    (merge_task_sync ⟨[], [("other", ⟨"base", 99⟩)]⟩ 5 envDefault ⟨true, fun _ => false⟩
        "root" "task/x" false none false).2.1.mergeBase = [] :=
  (merge_and_rebase_clear_entire_merge_base_cache.1 ⟨[], [("other", ⟨"base", 99⟩)]⟩ 5 envDefault
    ⟨true, fun _ => false⟩ "root" "task/x" false none false ⟨"main", 0, 0⟩ (by rfl)).1

/-! ## Session table (pty/mod.rs spawn_agent and kill_agent, state.rs AppState) -/

/-- Session table plus an audit of which child processes have been killed
or waited on; each session is reduced to its identifier and an abstract
child-process handle. -/
structure SessionsModel where
  table : List (String × Nat)
  killed : List Nat
  waited : List Nat
deriving DecidableEq, Repr

/-- Insertion with map semantics, mirroring the hash-map insert used for
the session table: replace the entry of an existing key, append
otherwise. -/
def mapInsert (t : List (String × Nat)) (k : String) (v : Nat) : List (String × Nat) :=
  if t.any (fun p => p.1 == k) then t.map (fun p => if p.1 == k then (k, v) else p)
  else t ++ [(k, v)]

/-- Table effect of spawn_agent: the new session is inserted under its
agent identifier; no kill and no wait is issued to any child process. -/
def spawn_agent_register (m : SessionsModel) (agent_id : String) (child : Nat) : SessionsModel :=
  { m with table := mapInsert m.table agent_id child }

/-- Table effect of kill_agent: remove the entry and kill its child;
unknown identifiers are a no-op. -/
def kill_agent (m : SessionsModel) (agent_id : String) : SessionsModel :=
  match m.table.find? (fun p => p.1 == agent_id) with
  | some p =>
    { table := m.table.filter (fun q => !(q.1 == agent_id)),
      killed := m.killed ++ [p.2], waited := m.waited }
  | none => m

theorem filter_map_insert (t : List (String × Nat)) (id : String) (v : Nat)
    (hnodup : (t.map Prod.fst).Nodup) (hmem : ∃ c, (id, c) ∈ t) :
    (t.map (fun p => if p.1 == id then (id, v) else p)).filter (fun p => p.1 == id) =
      [(id, v)] := by
  induction t with
  | nil =>
    rcases hmem with ⟨c, hc⟩
    simp at hc
  | cons a rest ih =>
    rw [List.map_cons, List.nodup_cons] at hnodup
    by_cases ha : (a.1 == id) = true
    · have hid : a.1 = id := by simpa using ha
      have hrest : ∀ p ∈ rest, (p.1 == id) = false := by
        intro p hp
        have hne : p.1 ≠ id := by
          intro hcon
          exact hnodup.1 (List.mem_map.mpr ⟨p, hp, by rw [hcon, hid]⟩)
        simpa using hne
      have htail :
          (rest.map (fun p => if p.1 == id then (id, v) else p)).filter
            (fun p => p.1 == id) = [] := by
        rw [List.filter_eq_nil_iff]
        intro x hx
        rcases List.mem_map.mp hx with ⟨p, hp, hpx⟩
        rw [if_neg (by simp [hrest p hp])] at hpx
        subst hpx
        simp [hrest p hp]
      rw [List.map_cons, if_pos ha, List.filter_cons]
      simp only [show (((id : String), v).1 == id) = true by simp, if_true, htail]
    · have hane : (a.1 == id) = false := by simpa using ha
      rcases hmem with ⟨c, hc⟩
      rcases List.mem_cons.mp hc with hc | hc
      · exfalso
        apply ha
        rw [← hc]
        simp
      · rw [List.map_cons, if_neg (by simp [hane]), List.filter_cons]
        simp only [hane]
        exact ih hnodup.2 ⟨c, hc⟩

/-- C9: spawning with an agent identifier already present silently
replaces the table entry: afterwards the table holds exactly one entry for
that identifier (the new session), the key set is unchanged, and the
previously registered child is neither killed nor waited on by the
replacement. -/
theorem spawn_replaces_without_killing (m : SessionsModel) (id : String)
    (oldChild newChild : Nat) (hmem : (id, oldChild) ∈ m.table)
    (hnodup : (m.table.map Prod.fst).Nodup) :
    (spawn_agent_register m id newChild).table.filter (fun p => p.1 == id) = [(id, newChild)]
    ∧ (spawn_agent_register m id newChild).table.map Prod.fst = m.table.map Prod.fst
    ∧ (spawn_agent_register m id newChild).killed = m.killed
    ∧ (spawn_agent_register m id newChild).waited = m.waited := by
  have hany : m.table.any (fun p => p.1 == id) = true :=
    List.any_eq_true.mpr ⟨(id, oldChild), hmem, by simp⟩
  have htbl : (spawn_agent_register m id newChild).table =
      m.table.map (fun p => if p.1 == id then (id, newChild) else p) := by
    unfold spawn_agent_register mapInsert
    rw [if_pos hany]
  refine ⟨?_, ?_, rfl, rfl⟩
  · rw [htbl]
    exact filter_map_insert m.table id newChild hnodup ⟨oldChild, hmem⟩
  · rw [htbl, List.map_map]
    apply List.map_congr_left
    intro p hp
    by_cases hpid : (p.1 == id) = true
    · simp only [Function.comp_apply, if_pos hpid]
      exact (by simpa using hpid : p.1 = id).symm
    · simp only [Function.comp_apply, if_neg hpid]

theorem spawn_replaces_without_killing_witness :
    (spawn_agent_register ⟨[("a", 1)], [], []⟩ "a" 2).table.filter (fun p => p.1 == "a") =
        [("a", 2)]
    ∧ (spawn_agent_register ⟨[("a", 1)], [], []⟩ "a" 2).killed = [] :=
  ⟨(spawn_replaces_without_killing ⟨[("a", 1)], [], []⟩ "a" 1 2 (by decide) (by decide)).1,
   (spawn_replaces_without_killing ⟨[("a", 1)], [], []⟩ "a" 1 2 (by decide) (by decide)).2.2.1⟩

/-! ## Pty reader loop (pty/mod.rs, spawn_agent reader thread) -/

/-- Output events delivered to the sink channel: a batch of raw bytes, or
the terminal exit notice with optional exit code, optional signal, and the
diagnostic trailer. -/
inductive PtyOutput where
  | data : List Char → PtyOutput
  | exit : Option Nat → Option String → List String → PtyOutput
deriving DecidableEq, Repr

/-- One blocking read result: a nonzero read carrying the bytes together
with whether the batch interval had elapsed at that point, a zero-byte
read, or a read error. A kill racing with an in-flight read surfaces as
one of the two terminating results. -/
inductive ReadResult where
  | chunk : List Char → Bool → ReadResult
  | eof : ReadResult
  | fail : ReadResult
deriving DecidableEq, Repr

def MAX_LINES : Nat := 50
def BATCH_MAX : Nat := 65536

/-- Ring-buffer push: append the completed line and evict the oldest line
once the bound is exceeded. -/
def ringPush (ring : List String) (line : String) : List String :=
  let r := ring ++ [line]
  if MAX_LINES < r.length then r.tail else r

/-- Per-chunk character walk of the reader thread: line feeds complete the
current line into the ring, carriage returns are discarded, and every
other character extends the current line. -/
def processChars : List Char → List String → String → List String × String
  | [], ring, cur => (ring, cur)
  | c :: cs, ring, cur =>
    if c = '\n' then processChars cs (ringPush ring cur) ""
    else if c = '\r' then processChars cs ring cur
    else processChars cs ring (cur.push c)

/-- State carried out of the read loop: events sent so far, the pending
batch, the diagnostic ring, the in-progress line, and whether the loop
broke out (as opposed to still being blocked in a read). -/
structure LoopResult where
  events : List PtyOutput
  batch : List Char
  ring : List String
  curLine : String
  broke : Bool
deriving DecidableEq, Repr

/-- The read loop of the reader thread: a zero-byte read or a read error
breaks out; a successful read accumulates lines and batch bytes and
flushes the batch as one data event when the size threshold is reached or
the interval has elapsed. -/
def readLoop : List ReadResult → List Char → List String → String → LoopResult
  | [], batch, ring, cur => ⟨[], batch, ring, cur, false⟩
  | ReadResult.eof :: _, batch, ring, cur => ⟨[], batch, ring, cur, true⟩
  | ReadResult.fail :: _, batch, ring, cur => ⟨[], batch, ring, cur, true⟩
  | ReadResult.chunk bytes elapsed :: rest, batch, ring, cur =>
    let rc := processChars bytes ring cur
    let batch2 := batch ++ bytes
    if BATCH_MAX ≤ batch2.length || elapsed then
      let r := readLoop rest [] rc.1 rc.2
      { r with events := PtyOutput.data batch2 :: r.events }
    else readLoop rest batch2 rc.1 rc.2

/-- Exit status observed by the blocking wait: exit code plus optional
signal description. -/
structure ExitStatus where
  exitCode : Nat
  signal : Option String
deriving DecidableEq, Repr

/-- Epilogue flush of the trailing unterminated line into the ring. -/
def finalTrailer (ring : List String) (cur : String) : List String :=
  if cur = "" then ring else ringPush ring cur

/-- Full event sequence a session delivers to its sink for a given finite
sequence of read results: the loop events, then (after a break) the
remaining batch flush and exactly one exit event carrying the wait status
and the diagnostic trailer. When the read list is exhausted without a
terminating result the thread is still blocked in a read and nothing
further is delivered. -/
def readerEvents (reads : List ReadResult) (status : Option ExitStatus) : List PtyOutput :=
  let r := readLoop reads [] [] ""
  if r.broke then
    r.events ++ (if r.batch = [] then [] else [PtyOutput.data r.batch])
      ++ [PtyOutput.exit (status.map ExitStatus.exitCode) (status.bind ExitStatus.signal)
            (finalTrailer r.ring r.curLine)]
  else r.events

def isExit : PtyOutput → Bool
  | .exit _ _ _ => true
  | .data _ => false

theorem readLoop_events_no_exit (reads : List ReadResult) :
    ∀ batch ring cur e, e ∈ (readLoop reads batch ring cur).events → isExit e = false := by
  induction reads with
  | nil => intro batch ring cur e he; simp [readLoop] at he
  | cons r rest ih =>
    intro batch ring cur e he
    cases r with
    | eof => simp [readLoop] at he
    | fail => simp [readLoop] at he
    | chunk bytes elapsed =>
      rw [readLoop] at he
      dsimp only at he
      split at he
      · simp only [List.mem_cons] at he
        rcases he with he | he
        · rw [he]; rfl
        · exact ih _ _ _ e he
      · exact ih _ _ _ e he

theorem exit_last_aux (l₁ : List PtyOutput) :
    ∀ (ds : List PtyOutput) (x ev : PtyOutput) (l₂ : List PtyOutput),
      (∀ e ∈ ds, isExit e = false) → ds ++ [x] = l₁ ++ ev :: l₂ → isExit ev = true →
        l₂ = [] := by
  induction l₁ with
  | nil =>
    intro ds x ev l₂ hall heq hex
    cases ds with
    | nil =>
      simp only [List.nil_append, List.cons.injEq] at heq
      exact heq.2.symm
    | cons d ds' =>
      simp only [List.cons_append, List.nil_append, List.cons.injEq] at heq
      have hd := hall d (by simp)
      rw [heq.1] at hd
      rw [hd] at hex
      cases hex
  | cons a l₁' ih =>
    intro ds x ev l₂ hall heq hex
    cases ds with
    | nil =>
      simp only [List.nil_append, List.cons_append, List.cons.injEq] at heq
      exact absurd heq.2.symm (by simp)
    | cons d ds' =>
      simp only [List.cons_append, List.cons.injEq] at heq
      exact ih ds' x ev l₂ (fun e he => hall e (by simp [he])) heq.2 hex

/-- C1: over any finite sequence of read results and any wait status, the
sink receives at most one exit event, and whenever an exit event occurs it
is the last event delivered, so every data event of the session precedes
it and none follows it; this covers every termination cause, since a
zero-byte read, a read error, and a kill racing with an in-flight read all
surface as one of the terminating read results. -/
theorem pty_exit_singular_and_last (reads : List ReadResult) (status : Option ExitStatus) :
    (readerEvents reads status).countP isExit ≤ 1
    ∧ ∀ l₁ ev l₂, readerEvents reads status = l₁ ++ ev :: l₂ → isExit ev = true →
        l₂ = [] := by
  have hloop := readLoop_events_no_exit reads [] [] ""
  by_cases hb : (readLoop reads [] [] "").broke = true
  · have hev : readerEvents reads status =
        ((readLoop reads [] [] "").events
          ++ (if (readLoop reads [] [] "").batch = [] then []
              else [PtyOutput.data (readLoop reads [] [] "").batch]))
        ++ [PtyOutput.exit (status.map ExitStatus.exitCode) (status.bind ExitStatus.signal)
              (finalTrailer (readLoop reads [] [] "").ring (readLoop reads [] [] "").curLine)] := by
      unfold readerEvents
      rw [if_pos hb, List.append_assoc]
    have hds : ∀ e ∈ (readLoop reads [] [] "").events
        ++ (if (readLoop reads [] [] "").batch = [] then []
            else [PtyOutput.data (readLoop reads [] [] "").batch]), isExit e = false := by
      intro e he
      rcases List.mem_append.mp he with he | he
      · exact hloop e he
      · split at he
        · simp at he
        · simp only [List.mem_singleton] at he
          rw [he]
          rfl
    constructor
    · rw [hev, List.countP_append, List.countP_eq_zero.mpr (by
        intro e he
        rw [hds e he]
        simp)]
      simp [List.countP_cons, isExit]
    · intro l₁ ev l₂ heq hex
      exact exit_last_aux l₁ _ _ ev l₂ hds (by rw [← heq, hev]) hex
  · have hev : readerEvents reads status = (readLoop reads [] [] "").events := by
      unfold readerEvents
      rw [if_neg hb]
    constructor
    · rw [hev, List.countP_eq_zero.mpr (by
        intro e he
        rw [hloop e he]
        simp)]
      omega
    · intro l₁ ev l₂ heq hex
      have hmem : ev ∈ readerEvents reads status := by
        rw [heq]
        simp
      rw [hev] at hmem
      rw [hloop ev hmem] at hex
      cases hex

theorem pty_exit_singular_and_last_witness : ([] : List PtyOutput) = [] :=
  (pty_exit_singular_and_last [ReadResult.eof] none).2 []
    (PtyOutput.exit none none []) [] (by rfl) (by rfl)

/-- Unbounded line collector over the same splitting discipline (line
feeds complete a line, carriage returns are dropped), used to state what
the bounded ring must contain. -/
def collectLines : List Char → List String → String → List String × String
  | [], acc, cur => (acc, cur)
  | c :: cs, acc, cur =>
    if c = '\n' then collectLines cs (acc ++ [cur]) ""
    else if c = '\r' then collectLines cs acc cur
    else collectLines cs acc (cur.push c)

/-- Bytes the loop actually consumed: every chunk before the first
terminating read result. -/
def consumedChunks : List ReadResult → List Char
  | [] => []
  | ReadResult.chunk bytes _ :: rest => bytes ++ consumedChunks rest
  | ReadResult.eof :: _ => []
  | ReadResult.fail :: _ => []

/-- Last n elements of a list. -/
def lastN (n : Nat) (l : List String) : List String := l.drop (l.length - n)

/-- All logical lines the session produced, including the trailing
unterminated line when non-empty. -/
def finalLines (reads : List ReadResult) : List String :=
  let a := collectLines (consumedChunks reads) [] ""
  if a.2 = "" then a.1 else a.1 ++ [a.2]

theorem lastN_length (n : Nat) (l : List String) : (lastN n l).length ≤ n := by
  unfold lastN
  rw [List.length_drop]
  omega

theorem ringPush_lastN (ls : List String) (x : String) :
    ringPush (lastN MAX_LINES ls) x = lastN MAX_LINES (ls ++ [x]) := by
  have hM : MAX_LINES = 50 := rfl
  unfold ringPush lastN
  dsimp only
  by_cases hm : ls.length < MAX_LINES
  · have h0 : ls.length - MAX_LINES = 0 := by omega
    have h1 : (ls ++ [x]).length - MAX_LINES = 0 := by
      rw [List.length_append]
      simp only [List.length_singleton]
      omega
    rw [h0, List.drop_zero, if_neg (by
      rw [List.length_append]
      simp only [List.length_singleton]
      omega), h1, List.drop_zero]
  · push_neg at hm
    have hlenA : (ls.drop (ls.length - MAX_LINES)).length = MAX_LINES := by
      rw [List.length_drop]
      omega
    rw [if_pos (by
      rw [List.length_append, hlenA]
      simp only [List.length_singleton]
      omega)]
    have hA : ls.drop (ls.length - MAX_LINES) ≠ [] := by
      intro hcon
      rw [hcon] at hlenA
      simp [MAX_LINES] at hlenA
    have htail : (ls.drop (ls.length - MAX_LINES) ++ [x]).tail =
        (ls.drop (ls.length - MAX_LINES)).tail ++ [x] := by
      cases hA2 : ls.drop (ls.length - MAX_LINES) with
      | nil => exact absurd hA2 hA
      | cons a as => rfl
    rw [htail, List.tail_drop]
    have hk : (ls ++ [x]).length - MAX_LINES = ls.length - MAX_LINES + 1 := by
      rw [List.length_append]
      simp only [List.length_singleton]
      omega
    rw [hk, List.drop_append_of_le_length (by omega)]

theorem processChars_lastN (cs : List Char) :
    ∀ ls cur, processChars cs (lastN MAX_LINES ls) cur =
      (lastN MAX_LINES (collectLines cs ls cur).1, (collectLines cs ls cur).2) := by
  induction cs with
  | nil => intro ls cur; rfl
  | cons c rest ih =>
    intro ls cur
    by_cases hn : c = '\n'
    · rw [processChars, collectLines, if_pos hn, if_pos hn, ringPush_lastN]
      exact ih (ls ++ [cur]) ""
    · by_cases hrr : c = '\r'
      · rw [processChars, collectLines, if_neg hn, if_neg hn, if_pos hrr, if_pos hrr]
        exact ih ls cur
      · rw [processChars, collectLines, if_neg hn, if_neg hn, if_neg hrr, if_neg hrr]
        exact ih ls (cur.push c)

theorem collectLines_append (a : List Char) :
    ∀ (b : List Char) (ls : List String) (cur : String),
      collectLines (a ++ b) ls cur =
        collectLines b (collectLines a ls cur).1 (collectLines a ls cur).2 := by
  induction a with
  | nil => intro b ls cur; rfl
  | cons c rest ih =>
    intro b ls cur
    by_cases hn : c = '\n'
    · rw [List.cons_append, collectLines, collectLines, if_pos hn, if_pos hn]
      exact ih b (ls ++ [cur]) ""
    · by_cases hrr : c = '\r'
      · rw [List.cons_append, collectLines, collectLines, if_neg hn, if_neg hn, if_pos hrr,
          if_pos hrr]
        exact ih b ls cur
      · rw [List.cons_append, collectLines, collectLines, if_neg hn, if_neg hn, if_neg hrr,
          if_neg hrr]
        exact ih b ls (cur.push c)

theorem readLoop_ring (reads : List ReadResult) :
    ∀ (batch : List Char) (ls : List String) (cur : String),
      (readLoop reads batch (lastN MAX_LINES ls) cur).ring =
        lastN MAX_LINES (collectLines (consumedChunks reads) ls cur).1
      ∧ (readLoop reads batch (lastN MAX_LINES ls) cur).curLine =
        (collectLines (consumedChunks reads) ls cur).2 := by
  induction reads with
  | nil => intro batch ls cur; exact ⟨rfl, rfl⟩
  | cons r rest ih =>
    intro batch ls cur
    cases r with
    | eof => exact ⟨rfl, rfl⟩
    | fail => exact ⟨rfl, rfl⟩
    | chunk bytes elapsed =>
      rw [readLoop]
      dsimp only
      rw [processChars_lastN]
      have hcc : consumedChunks (ReadResult.chunk bytes elapsed :: rest) =
          bytes ++ consumedChunks rest := rfl
      rw [hcc, collectLines_append]
      split
      · dsimp only
        exact ih [] (collectLines bytes ls cur).1 (collectLines bytes ls cur).2
      · exact ih (batch ++ bytes) (collectLines bytes ls cur).1 (collectLines bytes ls cur).2

/-- C7: whenever the loop terminates, the exit event carries a trailer
that is exactly the last (at most fifty) logical lines the session
produced, in oldest-to-newest order — lines are rebuilt by splitting on
line feeds and discarding carriage returns, the oldest line is evicted
first beyond the bound, and a non-empty unterminated final line is
appended — and the trailer never exceeds fifty lines. -/
theorem pty_trailer_bounded_and_ordered (reads : List ReadResult) (status : Option ExitStatus)
    (h : (readLoop reads [] [] "").broke = true) :
    ∃ ds, readerEvents reads status =
        ds ++ [PtyOutput.exit (status.map ExitStatus.exitCode) (status.bind ExitStatus.signal)
                (lastN MAX_LINES (finalLines reads))]
      ∧ (lastN MAX_LINES (finalLines reads)).length ≤ MAX_LINES := by
  have h0 : lastN MAX_LINES ([] : List String) = [] := rfl
  have hr := readLoop_ring reads [] [] ""
  rw [h0] at hr
  have htr : finalTrailer (readLoop reads [] [] "").ring (readLoop reads [] [] "").curLine =
      lastN MAX_LINES (finalLines reads) := by
    unfold finalTrailer finalLines
    dsimp only
    rw [hr.1, hr.2]
    by_cases hc : (collectLines (consumedChunks reads) [] "").2 = ""
    · rw [if_pos hc, if_pos hc]
    · rw [if_neg hc, if_neg hc, ringPush_lastN]
  refine ⟨(readLoop reads [] [] "").events
    ++ (if (readLoop reads [] [] "").batch = [] then []
        else [PtyOutput.data (readLoop reads [] [] "").batch]), ?_, lastN_length _ _⟩
  unfold readerEvents
  rw [if_pos h, htr, List.append_assoc]

theorem pty_trailer_bounded_and_ordered_witness :
    ∃ ds, readerEvents [ReadResult.chunk ['a', '\n', 'b'] true, ReadResult.eof]
          (some ⟨0, none⟩) =
        ds ++ [PtyOutput.exit ((some (⟨0, none⟩ : ExitStatus)).map ExitStatus.exitCode)
                ((some (⟨0, none⟩ : ExitStatus)).bind ExitStatus.signal)
                (lastN MAX_LINES
                  (finalLines [ReadResult.chunk ['a', '\n', 'b'] true, ReadResult.eof]))]
      ∧ (lastN MAX_LINES
          (finalLines [ReadResult.chunk ['a', '\n', 'b'] true, ReadResult.eof])).length ≤
          MAX_LINES :=
  pty_trailer_bounded_and_ordered [ReadResult.chunk ['a', '\n', 'b'] true, ReadResult.eof]
    (some ⟨0, none⟩) (by rfl)
